import Mathlib

/-!
# Chess-Vision: Vision-to-Position Reconciliation Engine — verification

A shallow embedding of the reconciliation core of the Chess-Vision
repository:

* `src/detection/fen_generator.py` — orientation estimation, square
  mapping, position assembly (`FENGenerator`);
* `src/gui/app.py` — the stability debouncer of `_detection_worker`,
  the move reconciler `_find_move_between_positions`, and the state
  update `_auto_update_board`.

The repository delegates chess rules and position encoding to the
external `python-chess` library, which is not part of the repository's
sources.  Its contract (legal-move generation, move application,
placement/FEN codec rejecting syntactically or semantically invalid
input) is modelled here by an executable implementation of the standard
chess rules; the definitions concerned carry a `Modelled from the
spec:` note in their doc comment.
-/

namespace ChessVision

/-! ## Pieces, placements and the board-field encoding -/

/-- The six chess piece kinds. -/
inductive PieceKind
  | pawn
  | knight
  | bishop
  | rook
  | queen
  | king
deriving DecidableEq

/-- A color: `true` is white, `false` is black (as in `python-chess`,
where `chess.WHITE = True`). -/
abbrev Color := Bool

/-- A colored piece. -/
structure Piece where
  color : Color
  kind : PieceKind
deriving DecidableEq

/-- A piece placement: 64 optional pieces, indexed by square
`8 * rank + file` (a1 = 0, h1 = 7, a8 = 56, h8 = 63), exactly the
square numbering of `chess.square(file_idx, rank_idx)`. -/
abbrev Placement := List (Option Piece)

/-- The square with the given file and rank index
(model of `chess.square`). -/
def mkSquare (file rank : Nat) : Nat := rank * 8 + file

/-- File index (0–7) of a square. -/
def fileOf (sq : Nat) : Nat := sq % 8

/-- Rank index (0–7) of a square. -/
def rankOf (sq : Nat) : Nat := sq / 8

/-- The piece on a square, `none` when empty or out of range. -/
def pieceAt (pl : Placement) (sq : Nat) : Option Piece := pl.getD sq none

/-- Put a piece on a square (model of `Board.set_piece_at`). -/
def setPieceAt (pl : Placement) (sq : Nat) (p : Piece) : Placement :=
  pl.set sq (some p)

/-- The empty placement (model of `Board.clear`). -/
def emptyPlacement : Placement := List.replicate 64 none

/-- FEN letter of a piece: upper case for white, lower case for black. -/
def pieceChar (p : Piece) : Char :=
  match p.color, p.kind with
  | true, .pawn => 'P'
  | true, .knight => 'N'
  | true, .bishop => 'B'
  | true, .rook => 'R'
  | true, .queen => 'Q'
  | true, .king => 'K'
  | false, .pawn => 'p'
  | false, .knight => 'n'
  | false, .bishop => 'b'
  | false, .rook => 'r'
  | false, .queen => 'q'
  | false, .king => 'k'

/-- Digit character for an empty-square run length (1–8). -/
def digitChar (n : Nat) : Char := Char.ofNat (48 + n)

/-- Run-length encode one rank (file a to file h), given the pending
count of empty squares. -/
def rankFenAux : List (Option Piece) → Nat → List Char
  | [], n => if n = 0 then [] else [digitChar n]
  | none :: rest, n => rankFenAux rest (n + 1)
  | some p :: rest, n =>
      (if n = 0 then [] else [digitChar n]) ++ pieceChar p :: rankFenAux rest 0

/-- The squares of rank `r`, file a to file h. -/
def rankSlice (pl : Placement) (r : Nat) : List (Option Piece) :=
  (List.range 8).map fun f => pieceAt pl (mkSquare f r)

/-- The board-field encoding of a placement: ranks 8 down to 1,
`/`-separated, with run-length counted empty squares (model of
`Board.board_fen`). -/
def boardFen (pl : Placement) : String :=
  String.mk (List.intercalate ['/']
    (((List.range 8).reverse).map fun r => rankFenAux (rankSlice pl r) 0))

/-! ## Full board state and moves -/

/-- Castling rights for both sides. -/
structure Castling where
  wk : Bool
  wq : Bool
  bk : Bool
  bq : Bool
deriving DecidableEq

/-- A full position: placement plus side to move, castling rights,
en-passant square and move clocks — the state carried by a
`chess.Board`. -/
structure Board where
  placement : Placement
  turn : Color
  castling : Castling
  ep : Option Nat
  halfmove : Nat
  fullmove : Nat
deriving DecidableEq

/-- A move: source square, target square, optional promotion kind. -/
structure Move where
  fromSq : Nat
  toSq : Nat
  promo : Option PieceKind
deriving DecidableEq

/-- A square from signed file/rank coordinates, `none` when off the
board. -/
def mkSq? (f r : Int) : Option Nat :=
  if 0 ≤ f ∧ f < 8 ∧ 0 ≤ r ∧ r < 8 then some (mkSquare f.toNat r.toNat)
  else none

/-! ## Attack computation

Modelled from the spec: the external rule engine (`python-chess`)
provides legal-move generation and move application; the following
definitions implement the standard chess rules it is contracted to
follow (§6 of the spec). -/

/-- Walk from `(f, r)` towards `(tf, tr)` in unit steps `(df, dr)`;
`true` when every square strictly before the target is empty. -/
def rayClearGo (pl : Placement) (tf tr df dr : Int) : Int → Int → Nat → Bool
  | _, _, 0 => true
  | f, r, fuel + 1 =>
      if f = tf ∧ r = tr then true
      else
        match mkSq? f r with
        | none => false
        | some s =>
            if (pieceAt pl s).isSome then false
            else rayClearGo pl tf tr df dr (f + df) (r + dr) fuel

/-- All squares strictly between `s` and `t` (aligned squares) are
empty. -/
def rayClear (pl : Placement) (s t : Nat) : Bool :=
  let sf : Int := fileOf s
  let sr : Int := rankOf s
  let tf : Int := fileOf t
  let tr : Int := rankOf t
  let df := Int.sign (tf - sf)
  let dr := Int.sign (tr - sr)
  rayClearGo pl tf tr df dr (sf + df) (sr + dr) 8

/-- Does the piece `p` sitting on `s` attack square `t`? -/
def attacksFrom (pl : Placement) (s : Nat) (p : Piece) (t : Nat) : Bool :=
  let df : Int := (fileOf t : Int) - (fileOf s : Int)
  let dr : Int := (rankOf t : Int) - (rankOf s : Int)
  let adf := df.natAbs
  let adr := dr.natAbs
  match p.kind with
  | .pawn => adf = 1 && dr = (if p.color then (1 : Int) else -1)
  | .knight => (adf = 1 && adr = 2) || (adf = 2 && adr = 1)
  | .king => (max adf adr) = 1
  | .bishop => adf = adr && adf ≠ 0 && rayClear pl s t
  | .rook => ((adf = 0 && adr ≠ 0) || (adr = 0 && adf ≠ 0)) && rayClear pl s t
  | .queen =>
      ((adf = adr && adf ≠ 0) || (adf = 0 && adr ≠ 0) || (adr = 0 && adf ≠ 0))
        && rayClear pl s t

/-- Is square `t` attacked by any piece of color `c`? -/
def attackedBy (pl : Placement) (c : Color) (t : Nat) : Bool :=
  (List.range 64).any fun s =>
    match pieceAt pl s with
    | some p => p.color == c && attacksFrom pl s p t
    | none => false

/-- The square of the king of color `c`, if present. -/
def kingSquare (pl : Placement) (c : Color) : Option Nat :=
  (List.range 64).find? fun s => pieceAt pl s == some ⟨c, .king⟩

/-! ## Move application (model of `Board.push`) -/

/-- Castling rights after a move of color `c` from `fromSq` to `toSq`:
a king move clears both rights of the mover; a rook leaving — or a
capture landing on — a rook home square clears the corresponding
right. -/
def updateCastling (cr : Castling) (p : Piece) (fromSq toSq : Nat) : Castling :=
  let cr1 :=
    if p.kind = .king then
      if p.color then { cr with wk := false, wq := false }
      else { cr with bk := false, bq := false }
    else cr
  let clear (c : Castling) (sq : Nat) : Castling :=
    if sq = 7 then { c with wk := false }
    else if sq = 0 then { c with wq := false }
    else if sq = 63 then { c with bk := false }
    else if sq = 56 then { c with bq := false }
    else c
  clear (clear cr1 fromSq) toSq

/-- Apply a move to a board, following the standard rules: en-passant
capture removal, promotion, the rook displacement of castling, the new
en-passant square after a double pawn push, castling-right updates,
half-move and full-move clocks, and the side-to-move flip.
Modelled from the spec: this is the `position × move → position`
operation of the external rule engine (`Board.push`). -/
def push (b : Board) (m : Move) : Board :=
  match pieceAt b.placement m.fromSq with
  | none => { b with turn := !b.turn, ep := none }
  | some p =>
      let pl := b.placement
      let captured := pieceAt pl m.toSq
      let isPawn := p.kind = .pawn
      let isEp := isPawn ∧ b.ep = some m.toSq ∧ captured = none
      let epCapSq := if p.color then m.toSq - 8 else m.toSq + 8
      let pl1 := if isEp then pl.set epCapSq none else pl
      let placed : Piece :=
        match m.promo with
        | some k => ⟨p.color, k⟩
        | none => p
      let pl2 := (pl1.set m.fromSq none).set m.toSq (some placed)
      let isCastle :=
        p.kind = .king ∧ ((fileOf m.toSq : Int) - (fileOf m.fromSq : Int)).natAbs = 2
      let pl3 :=
        if isCastle then
          if fileOf m.toSq = 6 then
            (pl2.set (m.toSq + 1) none).set (m.toSq - 1) (some ⟨p.color, .rook⟩)
          else
            (pl2.set (m.toSq - 2) none).set (m.toSq + 1) (some ⟨p.color, .rook⟩)
        else pl2
      let ep' :=
        if isPawn ∧ ((rankOf m.toSq : Int) - (rankOf m.fromSq : Int)).natAbs = 2 then
          some ((m.fromSq + m.toSq) / 2)
        else none
      { placement := pl3
        turn := !b.turn
        castling := updateCastling b.castling p m.fromSq m.toSq
        ep := ep'
        halfmove := if isPawn ∨ captured.isSome then 0 else b.halfmove + 1
        fullmove := if b.turn then b.fullmove else b.fullmove + 1 }

/-! ## Move generation (model of `Board.legal_moves`) -/

/-- Pawn moves (pushes, double pushes, captures, en passant,
promotions) from square `s` for color `c`. -/
def pawnMoves (b : Board) (s : Nat) (c : Color) : List Move :=
  let f : Int := fileOf s
  let r : Int := rankOf s
  let dir : Int := if c then 1 else -1
  let startRank : Int := if c then 1 else 6
  let promoRank : Int := if c then 7 else 0
  let mkMoves (t : Nat) : List Move :=
    if (rankOf t : Int) = promoRank then
      [⟨s, t, some .queen⟩, ⟨s, t, some .rook⟩, ⟨s, t, some .bishop⟩,
       ⟨s, t, some .knight⟩]
    else [⟨s, t, none⟩]
  let push1 :=
    match mkSq? f (r + dir) with
    | some t => if (pieceAt b.placement t).isNone then mkMoves t else []
    | none => []
  let push2 :=
    match mkSq? f (r + dir), mkSq? f (r + 2 * dir) with
    | some t1, some t2 =>
        if r = startRank ∧ (pieceAt b.placement t1).isNone
            ∧ (pieceAt b.placement t2).isNone then
          [⟨s, t2, none⟩]
        else []
    | _, _ => []
  let caps :=
    ([-1, 1] : List Int).flatMap fun d =>
      match mkSq? (f + d) (r + dir) with
      | some t =>
          match pieceAt b.placement t with
          | some q => if q.color = c then [] else mkMoves t
          | none => if b.ep = some t then [⟨s, t, none⟩] else []
      | none => []
  push1 ++ push2 ++ caps

/-- Single-step moves of a leaper (knight or king) given its offset
table. -/
def leaperMoves (pl : Placement) (s : Nat) (c : Color)
    (offsets : List (Int × Int)) : List Move :=
  let f : Int := fileOf s
  let r : Int := rankOf s
  offsets.filterMap fun o =>
    match mkSq? (f + o.1) (r + o.2) with
    | some t =>
        match pieceAt pl t with
        | some q => if q.color = c then none else some ⟨s, t, none⟩
        | none => some ⟨s, t, none⟩
    | none => none

/-- The eight knight offsets. -/
def knightOffsets : List (Int × Int) :=
  [(1, 2), (2, 1), (2, -1), (1, -2), (-1, -2), (-2, -1), (-2, 1), (-1, 2)]

/-- The eight king offsets. -/
def kingOffsets : List (Int × Int) :=
  [(1, 0), (1, 1), (0, 1), (-1, 1), (-1, 0), (-1, -1), (0, -1), (1, -1)]

/-- Walk a sliding ray, collecting target squares until blocked. -/
def slideGo (pl : Placement) (c : Color) (s : Nat) (df dr : Int) :
    Int → Int → Nat → List Move
  | _, _, 0 => []
  | f, r, fuel + 1 =>
      match mkSq? f r with
      | none => []
      | some t =>
          match pieceAt pl t with
          | none => ⟨s, t, none⟩ :: slideGo pl c s df dr (f + df) (r + dr) fuel
          | some q => if q.color = c then [] else [⟨s, t, none⟩]

/-- Sliding moves from `s` along the given directions. -/
def slideMoves (pl : Placement) (s : Nat) (c : Color)
    (dirs : List (Int × Int)) : List Move :=
  let f : Int := fileOf s
  let r : Int := rankOf s
  dirs.flatMap fun d => slideGo pl c s d.1 d.2 (f + d.1) (r + d.2) 7

/-- The four diagonal directions. -/
def bishopDirs : List (Int × Int) := [(1, 1), (1, -1), (-1, -1), (-1, 1)]

/-- The four orthogonal directions. -/
def rookDirs : List (Int × Int) := [(1, 0), (0, 1), (-1, 0), (0, -1)]

/-- Castling moves available to the side to move: rights present, the
rook on its home square, the squares between king and rook empty, and
the king neither in check nor crossing an attacked square. -/
def castlingMoves (b : Board) : List Move :=
  let pl := b.placement
  if b.turn then
    let enemy := attackedBy pl false
    let kside :=
      if b.castling.wk ∧ pieceAt pl 4 = some ⟨true, .king⟩
          ∧ pieceAt pl 7 = some ⟨true, .rook⟩
          ∧ (pieceAt pl 5).isNone ∧ (pieceAt pl 6).isNone
          ∧ ¬enemy 4 ∧ ¬enemy 5 ∧ ¬enemy 6 then
        [⟨4, 6, none⟩]
      else []
    let qside :=
      if b.castling.wq ∧ pieceAt pl 4 = some ⟨true, .king⟩
          ∧ pieceAt pl 0 = some ⟨true, .rook⟩
          ∧ (pieceAt pl 1).isNone ∧ (pieceAt pl 2).isNone ∧ (pieceAt pl 3).isNone
          ∧ ¬enemy 4 ∧ ¬enemy 3 ∧ ¬enemy 2 then
        [⟨4, 2, none⟩]
      else []
    kside ++ qside
  else
    let enemy := attackedBy pl true
    let kside :=
      if b.castling.bk ∧ pieceAt pl 60 = some ⟨false, .king⟩
          ∧ pieceAt pl 63 = some ⟨false, .rook⟩
          ∧ (pieceAt pl 61).isNone ∧ (pieceAt pl 62).isNone
          ∧ ¬enemy 60 ∧ ¬enemy 61 ∧ ¬enemy 62 then
        [⟨60, 62, none⟩]
      else []
    let qside :=
      if b.castling.bq ∧ pieceAt pl 60 = some ⟨false, .king⟩
          ∧ pieceAt pl 56 = some ⟨false, .rook⟩
          ∧ (pieceAt pl 57).isNone ∧ (pieceAt pl 58).isNone
          ∧ (pieceAt pl 59).isNone
          ∧ ¬enemy 60 ∧ ¬enemy 59 ∧ ¬enemy 58 then
        [⟨60, 58, none⟩]
      else []
    kside ++ qside

/-- All pseudo-legal moves of the side to move. -/
def pseudoLegalMoves (b : Board) : List Move :=
  ((List.range 64).flatMap fun s =>
    match pieceAt b.placement s with
    | some p =>
        if p.color = b.turn then
          match p.kind with
          | .pawn => pawnMoves b s p.color
          | .knight => leaperMoves b.placement s p.color knightOffsets
          | .king => leaperMoves b.placement s p.color kingOffsets
          | .bishop => slideMoves b.placement s p.color bishopDirs
          | .rook => slideMoves b.placement s p.color rookDirs
          | .queen => slideMoves b.placement s p.color (bishopDirs ++ rookDirs)
        else []
    | none => []) ++ castlingMoves b

/-- Does playing `m` leave the mover's own king attacked? -/
def intoCheck (b : Board) (m : Move) : Bool :=
  let b' := push b m
  match kingSquare b'.placement b.turn with
  | some k => attackedBy b'.placement b'.turn k
  | none => false

/-- The legal moves of a position: pseudo-legal moves that do not leave
the mover's king in check.  Modelled from the spec: the legal-move set
provided by the external rule engine (`Board.legal_moves`). -/
def legalMoves (b : Board) : List Move :=
  (pseudoLegalMoves b).filter fun m => !intoCheck b m

/-! ## The standard initial position -/

/-- White piece shorthand. -/
def w (k : PieceKind) : Option Piece := some ⟨true, k⟩

/-- Black piece shorthand. -/
def bl (k : PieceKind) : Option Piece := some ⟨false, k⟩

/-- The placement of the standard initial position. -/
def initialPlacement : Placement :=
  [w .rook, w .knight, w .bishop, w .queen, w .king, w .bishop, w .knight, w .rook,
   w .pawn, w .pawn, w .pawn, w .pawn, w .pawn, w .pawn, w .pawn, w .pawn,
   none, none, none, none, none, none, none, none,
   none, none, none, none, none, none, none, none,
   none, none, none, none, none, none, none, none,
   none, none, none, none, none, none, none, none,
   bl .pawn, bl .pawn, bl .pawn, bl .pawn, bl .pawn, bl .pawn, bl .pawn, bl .pawn,
   bl .rook, bl .knight, bl .bishop, bl .queen, bl .king, bl .bishop, bl .knight, bl .rook]

/-- The standard initial position (`chess.Board()`). -/
def initialBoard : Board :=
  { placement := initialPlacement
    turn := true
    castling := ⟨true, true, true, true⟩
    ep := none
    halfmove := 0
    fullmove := 1 }

/-! ## The move reconciler (`ChessVisionApp._find_move_between_positions`
and the branch of `_auto_update_board`) -/

/-- Model of `_find_move_between_positions`: scan the legal moves of
`previous`, apply each to a scratch copy, and return the first whose
resulting board-field encoding equals that of `newB`; `none` when no
move matches. -/
def findMoveBetweenPositions (previous newB : Board) : Option Move :=
  (legalMoves previous).find? fun m =>
    boardFen (push previous m).placement == boardFen newB.placement

/-- Outcome of a reconciliation step. -/
inductive Outcome
  | moveApplied (m : Move) (resulting : Board)
  | directAdopt (newState : Board)
deriving DecidableEq

/-- The reconciliation branch of `_auto_update_board`: when a move is
found it is pushed onto the confirmed board (`previous_board`), which
becomes the new confirmed state; otherwise the new board is adopted
directly. -/
def reconcile (confirmed newB : Board) : Outcome :=
  match findMoveBetweenPositions confirmed newB with
  | some m => .moveApplied m (push confirmed m)
  | none => .directAdopt newB

/-- A board built from a bare placement with the assembler's default
metadata fields `w KQkq - 0 1` (the board `chess.Board(fen)` yields for
an assembled encoding). -/
def boardWithDefaults (pl : Placement) : Board :=
  { placement := pl
    turn := true
    castling := ⟨true, true, true, true⟩
    ep := none
    halfmove := 0
    fullmove := 1 }

/-! ## The position codec

Modelled from the spec: the external position codec (`chess.Board(fen)`
/ `Board.fen()`), contracted in §6 to parse and serialize the standard
position encodings, "rejecting syntactically or semantically invalid
input".  Semantic validity is modelled as each side having exactly one
king. -/

/-- Split a character list on a separator character. -/
def splitOnChar (c : Char) : List Char → List (List Char)
  | [] => [[]]
  | a :: rest =>
      let r := splitOnChar c rest
      if a = c then [] :: r
      else
        match r with
        | [] => [[a]]
        | g :: gs => (a :: g) :: gs

/-- The piece denoted by a FEN letter. -/
def pieceOfChar : Char → Option Piece
  | 'P' => some ⟨true, .pawn⟩
  | 'N' => some ⟨true, .knight⟩
  | 'B' => some ⟨true, .bishop⟩
  | 'R' => some ⟨true, .rook⟩
  | 'Q' => some ⟨true, .queen⟩
  | 'K' => some ⟨true, .king⟩
  | 'p' => some ⟨false, .pawn⟩
  | 'n' => some ⟨false, .knight⟩
  | 'b' => some ⟨false, .bishop⟩
  | 'r' => some ⟨false, .rook⟩
  | 'q' => some ⟨false, .queen⟩
  | 'k' => some ⟨false, .king⟩
  | _ => none

/-- Parse one rank of a board field (must describe exactly 8 files). -/
def parseRankAux : List Char → List (Option Piece) → Option (List (Option Piece))
  | [], acc => if acc.length = 8 then some acc else none
  | ch :: rest, acc =>
      if '1' ≤ ch ∧ ch ≤ '8' then
        parseRankAux rest (acc ++ List.replicate (ch.toNat - 48) none)
      else
        match pieceOfChar ch with
        | some p => parseRankAux rest (acc ++ [some p])
        | none => none

/-- Parse a rank of the board field. -/
def parseRank (cs : List Char) : Option (List (Option Piece)) :=
  parseRankAux cs []

/-- Parse the board field: 8 `/`-separated ranks, given rank 8 first. -/
def parseBoardField (cs : List Char) : Option Placement := do
  let ranks := splitOnChar '/' cs
  if ranks.length = 8 then
    let parsed ← ranks.mapM parseRank
    some parsed.reverse.flatten
  else none

/-- Parse the side-to-move field. -/
def parseTurnChars : List Char → Option Color
  | ['w'] => some true
  | ['b'] => some false
  | _ => none

/-- Accumulate castling-right letters. -/
def parseCastlingAux : List Char → Castling → Option Castling
  | [], cr => some cr
  | c :: rest, cr =>
      if c = 'K' then parseCastlingAux rest { cr with wk := true }
      else if c = 'Q' then parseCastlingAux rest { cr with wq := true }
      else if c = 'k' then parseCastlingAux rest { cr with bk := true }
      else if c = 'q' then parseCastlingAux rest { cr with bq := true }
      else none

/-- Parse the castling field. -/
def parseCastlingChars : List Char → Option Castling
  | [] => none
  | ['-'] => some ⟨false, false, false, false⟩
  | cs => parseCastlingAux cs ⟨false, false, false, false⟩

/-- Parse the en-passant field. -/
def parseEpChars : List Char → Option (Option Nat)
  | ['-'] => some none
  | [f, r] =>
      if 'a' ≤ f ∧ f ≤ 'h' ∧ '1' ≤ r ∧ r ≤ '8' then
        some (some (mkSquare (f.toNat - 97) (r.toNat - 49)))
      else none
  | _ => none

/-- Parse a decimal number. -/
def parseNatAux : List Char → Nat → Option Nat
  | [], acc => some acc
  | c :: rest, acc =>
      if '0' ≤ c ∧ c ≤ '9' then parseNatAux rest (acc * 10 + (c.toNat - 48))
      else none

/-- Parse a non-empty decimal number. -/
def parseNatChars : List Char → Option Nat
  | [] => none
  | cs => parseNatAux cs 0

/-- Number of kings of color `c` in a placement. -/
def kingCount (pl : Placement) (c : Color) : Nat :=
  (pl.filter fun p => p = some ⟨c, .king⟩).length

/-- Modelled from the spec: `chess.Board(fen)`, parsing the standard
six-field position encoding and rejecting syntactically or semantically
invalid input (§6); semantic validity is modelled as exactly one king
per side. -/
def parseFen (s : String) : Option Board :=
  match splitOnChar ' ' s.data with
  | [bp, t, c, ep, hm, fm] => do
      let pl ← parseBoardField bp
      let turn ← parseTurnChars t
      let cast ← parseCastlingChars c
      let eps ← parseEpChars ep
      let h ← parseNatChars hm
      let f ← parseNatChars fm
      if kingCount pl true = 1 ∧ kingCount pl false = 1 then
        some ⟨pl, turn, cast, eps, h, f⟩
      else none
  | _ => none

/-- Decimal digits of a number (fuel-driven). -/
def natToCharsGo (fuel n : Nat) (acc : List Char) : List Char :=
  match fuel with
  | 0 => acc
  | fuel + 1 =>
      if n < 10 then digitChar n :: acc
      else natToCharsGo fuel (n / 10) (digitChar (n % 10) :: acc)

/-- Decimal representation of a number. -/
def natToString (n : Nat) : String := String.mk (natToCharsGo (n + 1) n [])

/-- Castling field of a position encoding. -/
def castlingStr (cr : Castling) : String :=
  let s := (if cr.wk then "K" else "") ++ (if cr.wq then "Q" else "")
    ++ (if cr.bk then "k" else "") ++ (if cr.bq then "q" else "")
  if s = "" then "-" else s

/-- Algebraic name of a square. -/
def squareName (sq : Nat) : String :=
  String.mk [Char.ofNat (97 + fileOf sq), Char.ofNat (49 + rankOf sq)]

/-- Modelled from the spec: the codec's full-position serialization
(`Board.fen()`). -/
def fullFen (b : Board) : String :=
  boardFen b.placement ++ " " ++ (if b.turn then "w" else "b") ++ " "
    ++ castlingStr b.castling ++ " "
    ++ (match b.ep with | none => "-" | some sq => squareName sq) ++ " "
    ++ natToString b.halfmove ++ " " ++ natToString b.fullmove

/-! ## The FEN generator (`src/detection/fen_generator.py`) -/

/-- A detection handed over by the detector: class label and center in
capture pixels (the detector also carries a confidence and a bounding
box, but `FENGenerator` reads only `class` and `center`; centers are
the integers `((xmin + xmax) // 2, (ymin + ymax) // 2)`). -/
structure Detection where
  cls : String
  center : Int × Int
deriving DecidableEq

/-- Does the class label start with the given character
(`str.startswith` for a one-character needle)? -/
def clsStartsWith (s : String) (c : Char) : Bool :=
  match s.data with
  | [] => false
  | a :: _ => a = c

/-- The 12 recognized piece codes (`FENGenerator.piece_map`). -/
def pieceMap : String → Option Piece
  | "wp" => some ⟨true, .pawn⟩
  | "wn" => some ⟨true, .knight⟩
  | "wb" => some ⟨true, .bishop⟩
  | "wr" => some ⟨true, .rook⟩
  | "wq" => some ⟨true, .queen⟩
  | "wk" => some ⟨true, .king⟩
  | "bp" => some ⟨false, .pawn⟩
  | "bn" => some ⟨false, .knight⟩
  | "bb" => some ⟨false, .bishop⟩
  | "br" => some ⟨false, .rook⟩
  | "bq" => some ⟨false, .queen⟩
  | "bk" => some ⟨false, .king⟩
  | _ => none

/-- The mutable state of a `FENGenerator`: the board pixel extent
(default `(395, 395)`) and the `white_at_bottom` flag (initially
`True`). -/
structure FENGenerator where
  boardSize : Nat × Nat
  whiteAtBottom : Bool

/-- A fresh `FENGenerator()`. -/
def FENGenerator.new : FENGenerator := ⟨(395, 395), true⟩

/-- Model of `FENGenerator.detect_orientation`: count white and black
detections whose center lies strictly below half the board height,
then set and return `white_at_bottom := white_bottom >= black_bottom`. -/
def detectOrientationG (g : FENGenerator) (ds : List Detection) :
    FENGenerator × Bool :=
  let counts := ds.foldl
    (fun (acc : Nat × Nat) d =>
      if ((g.boardSize.2 / 2 : Nat) : Int) < d.center.2 then
        if clsStartsWith d.cls 'w' then (acc.1 + 1, acc.2)
        else if clsStartsWith d.cls 'b' then (acc.1, acc.2 + 1)
        else acc
      else acc)
    (0, 0)
  let result := decide (counts.2 ≤ counts.1)
  ({ g with whiteAtBottom := result }, result)

/-- Model of `FENGenerator.center_to_square`.  The source computes
`int(x * 8 / w)` on the integer pixel center: the exact quotient
truncated toward zero, which is `Int.tdiv` here. -/
def centerToSquare (g : FENGenerator) (center : Int × Int) : Nat :=
  let fileRaw := Int.tdiv (center.1 * 8) g.boardSize.1
  let rankRaw := Int.tdiv (center.2 * 8) g.boardSize.2
  let fileIdx := min 7 (max 0 fileRaw)
  let rankIdx := min 7 (max 0 rankRaw)
  if g.whiteAtBottom then mkSquare fileIdx.toNat (7 - rankIdx).toNat
  else mkSquare (7 - fileIdx).toNat rankIdx.toNat

/-- The assembly loop of `generate_fen`: starting from the empty grid,
each recognized detection is written to its mapped square, later
detections silently overwriting earlier ones; unrecognized codes are
skipped. -/
def assembledPlacement (g1 : FENGenerator) (ds : List Detection) : Placement :=
  ds.foldl
    (fun pl d =>
      match pieceMap d.cls with
      | none => pl
      | some p => setPieceAt pl (centerToSquare g1 d.center) p)
    emptyPlacement

/-- Model of `FENGenerator.generate_fen`: re-estimate the orientation,
clear the board (start from the empty grid), place each recognized
detection, and emit the board-field encoding followed by the fixed
metadata fields `w KQkq - 0 1`. -/
def generateFen (g : FENGenerator) (ds : List Detection) :
    FENGenerator × String :=
  let g1 := (detectOrientationG g ds).1
  (g1, boardFen (assembledPlacement g1 ds) ++ " w KQkq - 0 1")

/-! ## The stability debouncer (`ChessVisionApp._detection_worker`) -/

/-- The worker-side state: the bounded history of recent encodings, the
consecutive-identical counter, the last promoted encoding, the pending
promotion, and the promotion threshold (`stable_fen_threshold = 10`). -/
structure WorkerState where
  recentFens : List String
  consecutiveIdenticalFens : Nat
  lastFen : Option String
  pendingFen : Option String
  stableFenThreshold : Nat
deriving DecidableEq

/-- The worker state set up by `ChessVisionApp.__init__`. -/
def initialWorkerState : WorkerState := ⟨[], 0, none, none, 10⟩

/-- Model of the validation/debounce body of `_detection_worker` for
one generated encoding.  The returned Bool records whether this cycle
wrote `pending_fen` (a promotion). -/
def processFen (st : WorkerState) (fen : String) : WorkerState × Bool :=
  if (parseFen fen).isSome then
    let st1 :=
      if st.recentFens = [] ∨ st.recentFens.getLast? ≠ some fen then
        let r := st.recentFens ++ [fen]
        { st with
            consecutiveIdenticalFens := 1
            recentFens := if 5 < r.length then r.drop 1 else r }
      else
        { st with consecutiveIdenticalFens := st.consecutiveIdenticalFens + 1 }
    if st1.stableFenThreshold ≤ st1.consecutiveIdenticalFens then
      if st1.lastFen ≠ some fen then
        ({ st1 with lastFen := some fen, pendingFen := some fen }, true)
      else (st1, false)
    else (st1, false)
  else ({ st with consecutiveIdenticalFens := 0 }, false)

/-- What the detector hands the worker in one cycle: whether an image
was captured, and the detection list. -/
structure DetectorOutput where
  hasImage : Bool
  detections : List Detection
deriving DecidableEq

/-- One iteration of the `_detection_worker` loop: when the detector
returns no image or an empty detection list, nothing happens at all;
otherwise an encoding is generated (updating the generator's
orientation state) and debounced. -/
def cycleWorker (g : FENGenerator) (st : WorkerState) (out : DetectorOutput) :
    FENGenerator × WorkerState × Bool :=
  if out.hasImage ∧ out.detections ≠ [] then
    let gf := generateFen g out.detections
    let sp := processFen st gf.2
    (gf.1, sp.1, sp.2)
  else (g, st, false)

/-! ## The confirmed-state update (`ChessVisionApp._auto_update_board`) -/

/-- The application state touched by `_auto_update_board`: the
displayed board (`board_view.board`, the confirmed state), the
`previous_board` record, the undo and redo stacks, and the FEN input
field. -/
structure AppState where
  boardViewBoard : Board
  previousBoard : Board
  boardHistory : List Board
  redoStack : List Board
  fenInput : String
deriving DecidableEq

/-- Model of `_auto_update_board`.  The undo snapshot and the redo
clear happen before `chess.Board(fen)` inside the `try` block; a parse
failure is caught by the `except` and leaves everything else
untouched; otherwise the reconciliation branch runs: a found move is
pushed onto `previous_board`, which the view then displays, else the
parsed board is adopted directly. -/
def autoUpdateBoard (st : AppState) (fen : String) : AppState :=
  let st1 :=
    { st with
        boardHistory := st.boardHistory ++ [st.boardViewBoard]
        redoStack := [] }
  match parseFen fen with
  | none => st1
  | some newBoard =>
      match findMoveBetweenPositions st1.previousBoard newBoard with
      | some mv =>
          let pushed := push st1.previousBoard mv
          { st1 with
              previousBoard := pushed
              boardViewBoard := pushed
              fenInput := fullFen pushed }
      | none =>
          { st1 with previousBoard := newBoard, boardViewBoard := newBoard }

/-! ## Concrete data used by the theorems -/

/-- The move e2–e4 (e2 = square 12, e4 = square 28). -/
def mvE2E4 : Move := ⟨12, 28, none⟩

/-- The encoding of the standard initial position with the assembler's
default metadata fields. -/
def initialFen : String := "rnbqkbnr/pppppppp/8/8/8/8/PPPPPPPP/RNBQKBNR w KQkq - 0 1"

/-- The encoding the assembler emits for a cycle in which no detection
is recognized: an empty board with the default metadata fields. -/
def emptyBoardFen : String := "8/8/8/8/8/8/8/8 w KQkq - 0 1"

/-- A placement holding two white kings (e1 and e2) and nothing else. -/
def twoWhiteKingsPl : Placement :=
  setPieceAt (setPieceAt emptyPlacement 4 ⟨true, .king⟩) 12 ⟨true, .king⟩

/-! ## C1 — move reconciliation finds e2–e4 from the initial position -/

/-- C1: from the confirmed standard initial position and a newly
stabilized placement equal to the placement after e2–e4, the
reconciler's first-match scan over the legal moves finds exactly
e2–e4, and advancing the confirmed board by pushing that move makes
black the side to move. -/
theorem reconcile_initial_e2e4 :
    findMoveBetweenPositions initialBoard
        (boardWithDefaults (push initialBoard mvE2E4).placement) = some mvE2E4
    ∧ reconcile initialBoard (boardWithDefaults (push initialBoard mvE2E4).placement)
        = .moveApplied mvE2E4 (push initialBoard mvE2E4)
    ∧ (push initialBoard mvE2E4).turn = false := by
  refine ⟨by decide, ?_, by decide⟩
  have h : findMoveBetweenPositions initialBoard
      (boardWithDefaults (push initialBoard mvE2E4).placement) = some mvE2E4 := by decide
  simp [reconcile, h]

/-! ## C3 — no matching legal move always falls to direct adoption -/

/-- C3: for every confirmed state and every new placement not
produced by any legal move of the confirmed board — including a
terminal confirmed position (empty legal-move set) and a placement
with an invalid piece count such as two white kings — reconciliation
is total (it cannot raise) and takes the direct-adoption path,
adopting the board built from the new placement with the assembler's
default metadata fields. -/
theorem no_match_direct_adopt (confirmed : Board) (pl : Placement)
    (h : ∀ m ∈ legalMoves confirmed,
      boardFen (push confirmed m).placement ≠ boardFen pl) :
    reconcile confirmed (boardWithDefaults pl)
      = .directAdopt (boardWithDefaults pl) := by
  have hf : findMoveBetweenPositions confirmed (boardWithDefaults pl) = none := by
    apply List.find?_eq_none.mpr
    intro m hm
    simpa [boardWithDefaults] using h m hm
  simp [reconcile, hf]

/-- Witness for C3 at a concrete input: the two-white-kings placement
is not reachable by any legal move of the initial position, and is
adopted directly. -/
theorem no_match_direct_adopt_witness :
    reconcile initialBoard (boardWithDefaults twoWhiteKingsPl)
      = .directAdopt (boardWithDefaults twoWhiteKingsPl) :=
  no_match_direct_adopt initialBoard twoWhiteKingsPl (by decide)

/-! ## C6 — the square mapper -/

/-- The square-mapper contract as the spec states it: file index
`clamp(floor(x·8/w), 0, 7)`, rank index `clamp(floor(y·8/h), 0, 7)`,
rank flipped (file unchanged) when the reference side is at the
bottom, file flipped (rank unchanged) otherwise. -/
def specSquareOf (g : FENGenerator) (x y : Int) : Nat :=
  let fileIdx := min 7 (max 0 (Int.fdiv (x * 8) g.boardSize.1))
  let rankIdx := min 7 (max 0 (Int.fdiv (y * 8) g.boardSize.2))
  if g.whiteAtBottom then mkSquare fileIdx.toNat (7 - rankIdx).toNat
  else mkSquare (7 - fileIdx).toNat rankIdx.toNat

/-- After clamping into `[0, 7]`, truncating division (the source's
`int(x * 8 / w)`) agrees with floor division (the spec's `floor`):
they coincide on non-negative arguments, and for a negative argument
both quotients are non-positive, hence both clamp to 0. -/
lemma clamp_tdiv_eq_clamp_fdiv (a : Int) (w : Nat) (hw : 0 < w) :
    min 7 (max 0 (Int.tdiv a w)) = min 7 (max 0 (Int.fdiv a w)) := by
  have hbw : (0 : Int) < (w : Int) := by exact_mod_cast hw
  rcases le_or_lt 0 a with ha | ha
  · rw [Int.fdiv_eq_tdiv ha hbw.le]
  · have h1 : Int.tdiv a w ≤ 0 := by
      have h2 := Int.tdiv_nonneg (a := -a) (b := (w : Int)) (by omega) hbw.le
      have h3 : Int.tdiv (-a) w = -(Int.tdiv a w) := Int.neg_tdiv a w
      omega
    have h2 : Int.fdiv a w ≤ 0 := by
      rw [Int.fdiv_eq_ediv _ hbw.le]
      exact (Int.ediv_neg' ha hbw).le
    omega

/-- A square built from in-range indices is in range. -/
lemma mkSquare_lt (f r : Nat) (hf : f ≤ 7) (hr : r ≤ 7) : mkSquare f r < 64 := by
  unfold mkSquare
  omega

/-- C6: the square mapper computes the clamped floor indices, flips
the rank (file unchanged) when the reference side is at the bottom and
the file (rank unchanged) otherwise, and never rejects an input: the
result is always a valid square. -/
theorem center_to_square_spec (g : FENGenerator) (x y : Int)
    (hw : 0 < g.boardSize.1) (hh : 0 < g.boardSize.2) :
    centerToSquare g (x, y) = specSquareOf g x y
    ∧ centerToSquare g (x, y) < 64 := by
  have e1 := clamp_tdiv_eq_clamp_fdiv (x * 8) g.boardSize.1 hw
  have e2 := clamp_tdiv_eq_clamp_fdiv (y * 8) g.boardSize.2 hh
  simp only [centerToSquare, specSquareOf]
  constructor
  · rw [e1, e2]
  · split <;> (apply mkSquare_lt <;> omega)

/-- Witness for C6 at the generator's actual board size `(395, 395)`. -/
theorem center_to_square_spec_witness :
    centerToSquare FENGenerator.new (100, 50) = specSquareOf FENGenerator.new 100 50
    ∧ centerToSquare FENGenerator.new (100, 50) < 64 :=
  center_to_square_spec FENGenerator.new 100 50 (by decide) (by decide)

/-! ## C7 / C8 — orientation estimation -/

/-- Number of detections whose center lies in the bottom half of the
board extent and whose class starts with the given color letter — the
claim's description of the counted population. -/
def bottomCount (g : FENGenerator) (c : Char) (ds : List Detection) : Nat :=
  (ds.filter fun d =>
    decide (((g.boardSize.2 / 2 : Nat) : Int) < d.center.2)
      && clsStartsWith d.cls c).length

/-- A class label starting with `'w'` does not start with `'b'`. -/
lemma clsStartsWith_w_not_b (s : String) (h : clsStartsWith s 'w' = true) :
    clsStartsWith s 'b' = false := by
  cases hd : s.data with
  | nil => simp [clsStartsWith, hd] at h
  | cons c0 cs =>
    simp only [clsStartsWith, hd, decide_eq_true_eq] at h
    simp [clsStartsWith, hd, h]

/-- The orientation loop's two counters are the two bottom-half color
counts. -/
lemma orientCounts_eq (g : FENGenerator) (ds : List Detection) (a b : Nat) :
    ds.foldl
      (fun (acc : Nat × Nat) d =>
        if ((g.boardSize.2 / 2 : Nat) : Int) < d.center.2 then
          if clsStartsWith d.cls 'w' then (acc.1 + 1, acc.2)
          else if clsStartsWith d.cls 'b' then (acc.1, acc.2 + 1)
          else acc
        else acc)
      (a, b)
      = (a + bottomCount g 'w' ds, b + bottomCount g 'b' ds) := by
  induction ds generalizing a b with
  | nil => simp [bottomCount]
  | cons d rest ih =>
    simp only [List.foldl_cons]
    by_cases h1 : ((g.boardSize.2 / 2 : Nat) : Int) < d.center.2
    · rw [if_pos h1]
      by_cases h2 : clsStartsWith d.cls 'w' = true
      · have h3 : clsStartsWith d.cls 'b' = false := clsStartsWith_w_not_b d.cls h2
        have hw : (decide (((g.boardSize.2 / 2 : Nat) : Int) < d.center.2)
            && clsStartsWith d.cls 'w') = true := by
          rw [decide_eq_true h1, h2]
          rfl
        have hb : ¬ ((decide (((g.boardSize.2 / 2 : Nat) : Int) < d.center.2)
            && clsStartsWith d.cls 'b') = true) := by
          rw [decide_eq_true h1, h3]
          simp
        rw [if_pos h2, ih]
        unfold bottomCount
        rw [List.filter_cons_of_pos (p := fun (d : Detection) => decide (((g.boardSize.2 / 2 : Nat) : Int) < d.center.2) && clsStartsWith d.cls 'w') hw, List.filter_cons_of_neg (p := fun (d : Detection) => decide (((g.boardSize.2 / 2 : Nat) : Int) < d.center.2) && clsStartsWith d.cls 'b') hb]
        simp only [List.length_cons, Prod.mk.injEq]
        exact ⟨by omega, trivial⟩
      · rw [if_neg h2]
        have hw : ¬ ((decide (((g.boardSize.2 / 2 : Nat) : Int) < d.center.2)
            && clsStartsWith d.cls 'w') = true) := by
          rw [decide_eq_true h1, Bool.eq_false_iff.mpr h2]
          simp
        by_cases h3 : clsStartsWith d.cls 'b' = true
        · have hb : (decide (((g.boardSize.2 / 2 : Nat) : Int) < d.center.2)
              && clsStartsWith d.cls 'b') = true := by
            rw [decide_eq_true h1, h3]
            rfl
          rw [if_pos h3, ih]
          unfold bottomCount
          rw [List.filter_cons_of_neg (p := fun (d : Detection) => decide (((g.boardSize.2 / 2 : Nat) : Int) < d.center.2) && clsStartsWith d.cls 'w') hw, List.filter_cons_of_pos (p := fun (d : Detection) => decide (((g.boardSize.2 / 2 : Nat) : Int) < d.center.2) && clsStartsWith d.cls 'b') hb]
          simp only [List.length_cons, Prod.mk.injEq]
          exact ⟨trivial, by omega⟩
        · have hb : ¬ ((decide (((g.boardSize.2 / 2 : Nat) : Int) < d.center.2)
              && clsStartsWith d.cls 'b') = true) := by
            rw [decide_eq_true h1, Bool.eq_false_iff.mpr h3]
            simp
          rw [if_neg h3, ih]
          unfold bottomCount
          rw [List.filter_cons_of_neg (p := fun (d : Detection) => decide (((g.boardSize.2 / 2 : Nat) : Int) < d.center.2) && clsStartsWith d.cls 'w') hw, List.filter_cons_of_neg (p := fun (d : Detection) => decide (((g.boardSize.2 / 2 : Nat) : Int) < d.center.2) && clsStartsWith d.cls 'b') hb]
    · rw [if_neg h1]
      have hw : ¬ ((decide (((g.boardSize.2 / 2 : Nat) : Int) < d.center.2)
          && clsStartsWith d.cls 'w') = true) := by
        rw [decide_eq_false h1]
        simp
      have hb : ¬ ((decide (((g.boardSize.2 / 2 : Nat) : Int) < d.center.2)
          && clsStartsWith d.cls 'b') = true) := by
        rw [decide_eq_false h1]
        simp
      rw [ih]
      unfold bottomCount
      rw [List.filter_cons_of_neg (p := fun (d : Detection) => decide (((g.boardSize.2 / 2 : Nat) : Int) < d.center.2) && clsStartsWith d.cls 'w') hw, List.filter_cons_of_neg (p := fun (d : Detection) => decide (((g.boardSize.2 / 2 : Nat) : Int) < d.center.2) && clsStartsWith d.cls 'b') hb]

/-- C7: orientation estimation returns `true` (reference color at
bottom) iff the reference color's bottom-half count is at least the
other color's — so a strict reference majority yields `true`, a strict
reverse majority yields `false`, and a tie yields `true` — and the
stored flag is set to the returned value. -/
theorem orientation_majority (g : FENGenerator) (ds : List Detection) :
    ((detectOrientationG g ds).2 = true
      ↔ bottomCount g 'b' ds ≤ bottomCount g 'w' ds)
    ∧ (detectOrientationG g ds).1.whiteAtBottom = (detectOrientationG g ds).2 := by
  unfold detectOrientationG
  rw [orientCounts_eq g ds 0 0]
  simp

/-- C8 — counterexample: with the previously held orientation
`false`, estimating on an empty detection set does *not* leave that
value in effect; both counters are 0, `0 ≥ 0` holds, and the stored
flag and the returned value become `true`. -/
theorem empty_detections_counterexample :
    (detectOrientationG ⟨(395, 395), false⟩ []).1.whiteAtBottom = true
    ∧ (detectOrientationG ⟨(395, 395), false⟩ []).2 = true
    ∧ ¬ ((detectOrientationG ⟨(395, 395), false⟩ []).2 = false) := by
  decide

/-- C8 (amended): an empty detection set always yields `true` — the
built-in default "reference side at bottom" — overwriting whatever
orientation was previously held. -/
theorem empty_detections_default (g : FENGenerator) :
    (detectOrientationG g []).1.whiteAtBottom = true
    ∧ (detectOrientationG g []).2 = true := by
  simp [detectOrientationG]

/-! ## C5 — the position assembler -/

/-- The claim's last-write-wins description of assembly: the piece of
the last detection in list order whose code is recognized and whose
center maps to `sq` (`none` when there is no such detection). -/
def lastRecognizedAt (g1 : FENGenerator) (ds : List Detection) (sq : Nat) :
    Option Piece :=
  (ds.reverse.find? fun d =>
      (pieceMap d.cls).isSome && (centerToSquare g1 d.center == sq)).bind
    fun d => pieceMap d.cls

/-- Writing a square and reading it back. -/
lemma pieceAt_set_self (pl : Placement) (sq : Nat) (v : Option Piece)
    (h : sq < pl.length) :
    pieceAt (pl.set sq v) sq = v := by
  unfold pieceAt
  rw [List.getD_eq_getElem?_getD, List.getElem?_set_self h]
  rfl

/-- Writing one square does not change another. -/
lemma pieceAt_set_ne (pl : Placement) (i j : Nat) (v : Option Piece)
    (h : i ≠ j) :
    pieceAt (pl.set i v) j = pieceAt pl j := by
  unfold pieceAt
  rw [List.getD_eq_getElem?_getD, List.getD_eq_getElem?_getD,
    List.getElem?_set_ne h]

/-- The assembly fold realizes last-write-wins over any accumulator. -/
lemma assemble_foldl_pieceAt (g1 : FENGenerator) (ds : List Detection)
    (acc : Placement) (sq : Nat) (hsq : sq < acc.length) :
    pieceAt (ds.foldl
      (fun pl d =>
        match pieceMap d.cls with
        | none => pl
        | some p => setPieceAt pl (centerToSquare g1 d.center) p) acc) sq
      = (lastRecognizedAt g1 ds sq).or (pieceAt acc sq) := by
  induction ds generalizing acc with
  | nil => simp [lastRecognizedAt]
  | cons d rest ih =>
    simp only [List.foldl_cons]
    have hrev : (d :: rest).reverse = rest.reverse ++ [d] := by simp
    unfold lastRecognizedAt
    rw [hrev, List.find?_append, List.find?_singleton]
    rcases hm : pieceMap d.cls with _ | p
    · dsimp only
      rw [ih acc hsq]
      simp [lastRecognizedAt]
    · dsimp only
      have hlen : sq < (setPieceAt acc (centerToSquare g1 d.center) p).length := by
        simpa [setPieceAt] using hsq
      rw [ih _ hlen]
      by_cases hct : centerToSquare g1 d.center = sq
      · have hset : pieceAt (setPieceAt acc (centerToSquare g1 d.center) p) sq
            = some p := by
          rw [hct]
          exact pieceAt_set_self acc sq (some p) hsq
        rw [hset]
        rcases hfind : rest.reverse.find? (fun d =>
            (pieceMap d.cls).isSome && (centerToSquare g1 d.center == sq)) with _ | e
        · simp [lastRecognizedAt, hfind, hct, hm]
        · have hpe := List.find?_some hfind
          have hsome : (pieceMap e.cls).isSome = true :=
            (Bool.and_eq_true _ _ |>.mp hpe).1
          rcases Option.isSome_iff_exists.mp hsome with ⟨q, hq⟩
          simp [lastRecognizedAt, hfind, hq, hct]
      · have hset : pieceAt (setPieceAt acc (centerToSquare g1 d.center) p) sq
            = pieceAt acc sq := pieceAt_set_ne acc _ sq (some p) hct
        rw [hset]
        simp [lastRecognizedAt, hct]

/-- C5: the assembler starts from an empty grid, skips unrecognized
codes, writes recognized detections with last-write-wins in list
order, and returns the board-field encoding of that grid followed by
the fixed metadata fields `w`, `KQkq`, `-`, `0`, `1`. -/
theorem assembler_spec (g : FENGenerator) (ds : List Detection) (sq : Fin 64) :
    (generateFen g ds).2
      = boardFen (assembledPlacement (detectOrientationG g ds).1 ds)
        ++ " w KQkq - 0 1"
    ∧ pieceAt (assembledPlacement (detectOrientationG g ds).1 ds) sq
      = lastRecognizedAt (detectOrientationG g ds).1 ds sq := by
  constructor
  · rfl
  · have h := assemble_foldl_pieceAt (detectOrientationG g ds).1 ds
      emptyPlacement sq (by simp [emptyPlacement, sq.isLt])
    have hempty : pieceAt emptyPlacement sq = none := by
      unfold pieceAt emptyPlacement
      rw [List.getD_eq_getElem?_getD, List.getElem?_replicate]
      simp [sq.isLt]
    rw [assembledPlacement, h, hempty, Option.or_none]

/-! ## C2 — the debounce threshold -/

/-- The worker state after `n` detection cycles that all observe the
same encoding, starting from the freshly initialized state. -/
def runSame (fen : String) : Nat → WorkerState
  | 0 => initialWorkerState
  | n + 1 => (processFen (runSame fen n) fen).1

/-- Closed form of the state along a run of identical valid encodings:
the history holds just that encoding, the counter equals the number of
cycles, and the last/pending fields flip exactly when the threshold 10
is reached. -/
lemma runSame_spec (fen : String) (hv : (parseFen fen).isSome = true) (n : Nat) :
    runSame fen n
      = ⟨if n = 0 then [] else [fen], n,
          if 10 ≤ n then some fen else none,
          if 10 ≤ n then some fen else none, 10⟩ := by
  induction n with
  | zero => rfl
  | succ k ih =>
    rw [runSame, ih]
    unfold processFen
    rw [if_pos hv]
    by_cases hk0 : k = 0
    · subst hk0
      simp
    · have hcond : ¬ (((if k = 0 then ([] : List String) else [fen]) = [])
          ∨ ((if k = 0 then ([] : List String) else [fen]).getLast? ≠ some fen)) := by
        rw [if_neg hk0]
        simp
      dsimp only
      rw [if_neg hcond]
      dsimp only
      rcases Nat.lt_or_ge (k + 1) 10 with hlt | hge
      · rw [if_neg (by omega : ¬ (10 ≤ k + 1))]
        rw [if_neg hk0, if_neg (by omega : ¬ (k + 1 = 0)),
          if_neg (by omega : ¬ (10 ≤ k)), if_neg (by omega : ¬ (10 ≤ k + 1))]
      · rw [if_pos (by omega : 10 ≤ k + 1)]
        by_cases hk9 : k = 9
        · subst hk9
          rw [if_neg (by omega : ¬ (10 ≤ 9))]
          rw [if_pos (by simp : (none : Option String) ≠ some fen)]
          rw [if_neg hk0, if_neg (by omega : ¬ (9 + 1 = 0)),
            if_pos (by omega : 10 ≤ 9 + 1)]
        · rw [if_pos (by omega : 10 ≤ k)]
          rw [if_neg (by simp : ¬ ((some fen : Option String) ≠ some fen))]
          rw [if_neg hk0, if_neg (by omega : ¬ (k + 1 = 0)),
            if_pos (by omega : 10 ≤ k + 1)]

/-- C2: along a run of identical valid encodings from a fresh
state, cycles 1–9 never promote, cycle 10 promotes (so the 10th
identical value causes promotion exactly once), every later cycle of
the same run does not promote again, and any cycle observing a valid
encoding different from the last recorded one resets the consecutive
counter to 1. -/
theorem debounce_threshold (fen : String) (hv : (parseFen fen).isSome = true) :
    (∀ n, n < 9 → (processFen (runSame fen n) fen).2 = false)
    ∧ (processFen (runSame fen 9) fen).2 = true
    ∧ (∀ n, 10 ≤ n → (processFen (runSame fen n) fen).2 = false)
    ∧ (∀ (st : WorkerState) (g : String), (parseFen g).isSome = true →
        st.recentFens.getLast? ≠ some g →
        (processFen st g).1.consecutiveIdenticalFens = 1) := by
  have flag : ∀ n, (processFen (runSame fen n) fen).2
      = decide (n = 9) := by
    intro n
    rw [runSame_spec fen hv n]
    unfold processFen
    rw [if_pos hv]
    by_cases hn0 : n = 0
    · subst hn0
      simp
    · have hcond : ¬ (((if n = 0 then ([] : List String) else [fen]) = [])
          ∨ ((if n = 0 then ([] : List String) else [fen]).getLast? ≠ some fen)) := by
        rw [if_neg hn0]
        simp
      dsimp only
      rw [if_neg hcond]
      dsimp only
      rcases Nat.lt_or_ge (n + 1) 10 with hlt | hge
      · rw [if_neg (by omega : ¬ (10 ≤ n + 1))]
        simp
        omega
      · rw [if_pos (by omega : 10 ≤ n + 1)]
        by_cases hn9 : n = 9
        · subst hn9
          rw [if_neg (by omega : ¬ (10 ≤ 9))]
          rw [if_pos (by simp : (none : Option String) ≠ some fen)]
          simp
        · rw [if_pos (by omega : 10 ≤ n)]
          rw [if_neg (by simp : ¬ ((some fen : Option String) ≠ some fen))]
          simp
          omega
  refine ⟨fun n hn => ?_, ?_, fun n hn => ?_, fun st g hg hne => ?_⟩
  · rw [flag n]
    simp
    omega
  · rw [flag 9]
    rfl
  · rw [flag n]
    simp
    omega
  · unfold processFen
    rw [if_pos hg]
    have hcond : st.recentFens = [] ∨ st.recentFens.getLast? ≠ some g := by
      rcases hr : st.recentFens with _ | ⟨a, l⟩
      · exact Or.inl rfl
      · exact Or.inr (hr ▸ hne)
    dsimp only
    rw [if_pos hcond]
    dsimp only
    split
    · split <;> rfl
    · rfl

/-- Witness for C2 on the initial-position encoding: the 9th cycle does
not promote, the 10th does, the 11th does not. -/
theorem debounce_threshold_witness :
    (processFen (runSame initialFen 8) initialFen).2 = false
    ∧ (processFen (runSame initialFen 9) initialFen).2 = true
    ∧ (processFen (runSame initialFen 10) initialFen).2 = false :=
  ⟨(debounce_threshold initialFen (by decide)).1 8 (by omega),
   (debounce_threshold initialFen (by decide)).2.1,
   (debounce_threshold initialFen (by decide)).2.2.1 10 (by omega)⟩

/-! ## C4 — behaviour on a parse failure -/

/-- A worker state reached after three identical valid cycles. -/
def stThreeCycles : WorkerState :=
  ⟨[initialFen], 3, none, none, 10⟩

/-- C4 — counterexample: the assembler really produces the
empty-board encoding for an all-unrecognized detection list, that
encoding fails position-codec parsing, and processing it from a state
whose consecutive counter is 3 does *not* leave the counter at 3. -/
theorem parse_failure_counterexample :
    (generateFen FENGenerator.new [⟨"xx", (10, 10)⟩]).2 = emptyBoardFen
    ∧ (parseFen emptyBoardFen).isSome = false
    ∧ (processFen stThreeCycles emptyBoardFen).1.consecutiveIdenticalFens
        ≠ stThreeCycles.consecutiveIdenticalFens := by
  decide

/-- C4 (amended): a cycle whose encoding fails position-codec
parsing resets the consecutive counter to 0 (rather than holding its
value), and leaves the recent history, the last promoted encoding and
the pending promotion unchanged, without promoting. -/
theorem parse_failure_resets (st : WorkerState) (fen : String)
    (h : (parseFen fen).isSome = false) :
    processFen st fen = ({ st with consecutiveIdenticalFens := 0 }, false) := by
  unfold processFen
  rw [if_neg (by simp [h])]

/-- Witness for the amended C4 at the concrete failing assembled
encoding. -/
theorem parse_failure_resets_witness :
    processFen stThreeCycles emptyBoardFen
      = ({ stThreeCycles with consecutiveIdenticalFens := 0 }, false) :=
  parse_failure_resets stThreeCycles emptyBoardFen (by decide)

/-! ## C9 — invalid input at the update boundary -/

/-- An application state with a non-empty redo stack and an empty undo
history, as left by one undo. -/
def appStateEx : AppState :=
  ⟨initialBoard, initialBoard, [], [initialBoard], initialFen⟩

/-- C9 — counterexample: feeding an encoding that fails defensive
re-validation does *not* leave all engine state unchanged — the redo
stack is cleared (and the undo history gains an entry) before the
input is validated. -/
theorem invalid_update_counterexample :
    (parseFen "garbage") = none
    ∧ (autoUpdateBoard appStateEx "garbage").redoStack ≠ appStateEx.redoStack
    ∧ (autoUpdateBoard appStateEx "garbage").boardHistory ≠ appStateEx.boardHistory := by
  decide

/-- C9 (amended): on an input that fails re-validation the
confirmed board, the previous-board record and the FEN input field are
unchanged and nothing of the input is applied, but — the snapshot and
clear preceding validation inside the `try` block — the undo history
gains a copy of the confirmed board and the redo stack is cleared. -/
theorem invalid_update_rejected (st : AppState) (fen : String)
    (h : parseFen fen = none) :
    autoUpdateBoard st fen
      = { st with
            boardHistory := st.boardHistory ++ [st.boardViewBoard]
            redoStack := [] } := by
  unfold autoUpdateBoard
  rw [h]

/-- Witness for the amended C9 at a concrete invalid input. -/
theorem invalid_update_rejected_witness :
    autoUpdateBoard appStateEx "garbage"
      = { appStateEx with
            boardHistory := appStateEx.boardHistory ++ [appStateEx.boardViewBoard]
            redoStack := [] } :=
  invalid_update_rejected appStateEx "garbage" (by decide)

/-! ## C10 — empty detector cycles and the empty board -/

/-- C10: a cycle in which the detector returns no image or an empty
detection list performs no assembly and leaves the generator state,
the recent-encodings history, the streak counter and the pending
promotion unchanged; moreover the pending promotion only ever changes
to an encoding the codec accepts and the recent history only ever
gains the observed encoding when it parses — and the empty-board
encoding is rejected by the codec, so it can never enter the history,
accrue a streak, or be promoted. -/
theorem empty_cycle_no_effect (g : FENGenerator) (st : WorkerState)
    (out : DetectorOutput) :
    ((out.hasImage = false ∨ out.detections = []) →
      cycleWorker g st out = (g, st, false))
    ∧ parseFen emptyBoardFen = none
    ∧ (∀ fen, (processFen st fen).1.pendingFen ≠ st.pendingFen →
        (parseFen fen).isSome = true ∧ (processFen st fen).1.pendingFen = some fen)
    ∧ (∀ fen x, x ∈ (processFen st fen).1.recentFens →
        x ∈ st.recentFens ∨ ((parseFen fen).isSome = true ∧ x = fen)) := by
  refine ⟨fun h => ?_, by decide, fun fen hne => ?_, fun fen x hx => ?_⟩
  · unfold cycleWorker
    rw [if_neg (by rcases h with h | h <;> simp [h])]
  · unfold processFen at hne ⊢
    by_cases hv : (parseFen fen).isSome = true
    · rw [if_pos hv] at hne ⊢
      refine ⟨hv, ?_⟩
      dsimp only at hne ⊢
      split_ifs at hne ⊢ <;> simp_all
    · rw [if_neg hv] at hne
      simp at hne
  · unfold processFen at hx
    by_cases hv : (parseFen fen).isSome = true
    · rw [if_pos hv] at hx
      dsimp only at hx
      split_ifs at hx <;> dsimp only at hx <;>
        first
        | exact Or.inl hx
        | exact (List.mem_append.mp (List.drop_subset 1 _ hx)).elim Or.inl
            (fun h => Or.inr ⟨hv, List.mem_singleton.mp h⟩)
        | exact (List.mem_append.mp hx).elim Or.inl
            (fun h => Or.inr ⟨hv, List.mem_singleton.mp h⟩)
    · rw [if_neg hv] at hx
      exact Or.inl hx

/-- Witness for C10: a no-image cycle from the fresh state changes
nothing. -/
theorem empty_cycle_no_effect_witness :
    cycleWorker FENGenerator.new initialWorkerState ⟨false, []⟩
      = (FENGenerator.new, initialWorkerState, false) :=
  (empty_cycle_no_effect FENGenerator.new initialWorkerState ⟨false, []⟩).1
    (Or.inl rfl)

end ChessVision

